import Mathlib

/-!
Verification of the SayCuteWeb chat backend (src/app.py and src/tools.py)
against its natural-language specification.

The Python source is shallowly embedded: Python dict/JSON values become the
inductive `PyValue`; the model backend, `json.loads`, `json.dumps` and the
subprocess runner are external capabilities and are passed in as parameters;
the single memory file is an explicit state cell threaded through the
functions that touch it; Python code that can raise an uncaught exception is
embedded in the `Except` monad.
-/

namespace SayCuteWeb

/-- A Python/JSON value, as produced by `json.loads` and carried in tool-call
arguments.  Covers the shapes the embedded code distinguishes: `None`,
booleans, integers, strings, lists and string-keyed dicts. -/
inductive PyValue where
  | pynone
  | pybool (b : Bool)
  | pyint (n : Int)
  | pystr (s : String)
  | pylist (xs : List PyValue)
  | pydict (xs : List (String × PyValue))

/-- Python truthiness (`bool(v)`) for the embedded value shapes. -/
def truthy : PyValue → Bool
  | .pynone => false
  | .pybool b => b
  | .pyint n => n != 0
  | .pystr s => s ≠ ""
  | .pylist xs => !xs.isEmpty
  | .pydict xs => !xs.isEmpty

/-- Python `v == s` for a string literal `s`: string equality when `v` is a
string, `False` for every other shape (Python cross-type `==`). -/
def pyEqStr (v : PyValue) (s : String) : Bool :=
  match v with
  | .pystr t => t == s
  | _ => false

/-- `d.get(k, default)` on a dict's entry list (keys are unique in dicts
produced by `json.loads` and by the model client). -/
def pyGet (xs : List (String × PyValue)) (k : String) (d : PyValue) : PyValue :=
  match xs.find? (fun p => p.1 == k) with
  | some p => p.2
  | none => d

/-- `v.get(k, default)` where `v` is a dict-shaped `PyValue`. -/
def dictGetV (v : PyValue) (k : String) (d : PyValue) : PyValue :=
  match v with
  | .pydict xs => pyGet xs k d
  | _ => d

/-- Python `len(v)`; raises `TypeError` (modelled as `Except.error`) on
values without a length, such as `None`, booleans and integers. -/
def pyLen : PyValue → Except Unit Nat
  | .pystr s => .ok s.length
  | .pylist xs => .ok xs.length
  | .pydict xs => .ok xs.length
  | _ => .error ()

/-- Python `v[:n]`; raises `TypeError` (modelled as `Except.error`) on
dicts and on shapes that do not support slicing. -/
def pySliceUpTo (v : PyValue) (n : Nat) : Except Unit PyValue :=
  match v with
  | .pystr s => .ok (.pystr (s.take n))
  | .pylist xs => .ok (.pylist (xs.take n))
  | _ => .error ()

mutual
/-- Python `repr(v)` for the embedded shapes (used by `str()` on containers). -/
def pyReprFun : PyValue → String
  | .pynone => "None"
  | .pybool b => if b then "True" else "False"
  | .pyint n => toString n
  | .pystr s => "\x27" ++ s ++ "\x27"
  | .pylist xs => "[" ++ pyReprList xs ++ "]"
  | .pydict xs => "\x7b" ++ pyReprPairs xs ++ "\x7d"

/-- Comma-separated reprs of a list's elements. -/
def pyReprList : List PyValue → String
  | [] => ""
  | [x] => pyReprFun x
  | x :: xs => pyReprFun x ++ ", " ++ pyReprList xs

/-- Comma-separated `'key': repr(value)` pairs of a dict. -/
def pyReprPairs : List (String × PyValue) → String
  | [] => ""
  | [(k, v)] => "\x27" ++ k ++ "\x27: " ++ pyReprFun v
  | (k, v) :: xs => "\x27" ++ k ++ "\x27: " ++ pyReprFun v ++ ", " ++ pyReprPairs xs
end

/-- Python `str(v)`: the string itself for strings, `repr` otherwise
(for `None`, booleans, integers, lists and dicts `str` and `repr` agree). -/
def pyStrFun : PyValue → String
  | .pystr s => s
  | v => pyReprFun v

/-- Modelled from the spec: `config.py` is not part of the sources, only the
statements importing it are.  The spec describes these as fixed configuration constants
(`MAX_TOOL_ROUNDS` round limit, python tool timeout and output cap, memory
size cap), without fixing their numeric values, so the development is
parametric in them. -/
structure Config where
  MAX_TOOL_ROUNDS : Nat
  PYTHON_TOOL_TIMEOUT_SECONDS : Nat
  PYTHON_TOOL_MAX_OUTPUT_CHARS : Nat
  MAX_MEMORY_CHARS : Nat
deriving Repr

/-- Outcome of `subprocess.run([sys.executable, "-c", code], ...)`:
the process completed with an exit code and captured streams, timed out
(`subprocess.TimeoutExpired`), or failed to run (any other exception). -/
inductive ExecOutcome where
  | completed (returncode : Int) (stdout stderr : String)
  | timedOut
  | failed (msg : String)
deriving DecidableEq, Repr

/-- External capabilities used by the embedded code: `json.loads`
(`Option.none` models a raised decode error), `json.dumps`, and the
subprocess runner behind `python_exec`. -/
structure Env where
  jsonLoads : String → Option PyValue
  dumps : List (String × PyValue) → String
  exec : String → ExecOutcome

/-- A `ToolResult` in the source is a plain JSON-serializable dict. -/
abbrev ToolResult := List (String × PyValue)

/-- The state of `MEMORY_FILE`: `some v` when the file holds a JSON object
whose `content` key maps to `v` (which is what `_save_memories` always
writes); `Option.none` when the file is missing, unreadable, corrupt, or not
an object — all shapes `load_memories` reads back as the empty string. -/
abbrev MemState := Option PyValue

/-- src/tools.py `load_memories`: read the memory file and return the
`str()` of its `content` field, or `""` when nothing usable is stored. -/
def load_memories (mem : MemState) : String :=
  match mem with
  | some v => pyStrFun v
  | none => ""

/-- src/tools.py `_save_memories`: overwrite the memory file with
`{"content": content}`. -/
def save_memories (content : PyValue) (_mem : MemState) : MemState :=
  some content

/-- src/tools.py `run_memory_tool`: reject falsy content, truncate content
longer than `MAX_MEMORY_CHARS` via Python slicing, overwrite the store.
`dispatch_tool` passes `args.get("content")` unvalidated, so `content` can
be any `PyValue`; `len(content)` and `content[:MAX_MEMORY_CHARS]` then raise
`TypeError` on shapes without length or slicing (embedded as `Except`). -/
def run_memory_tool (cfg : Config) (mem : MemState) (content : PyValue) :
    Except Unit (ToolResult × MemState) :=
  if truthy content = false then
    .ok ([("ok", .pybool false), ("error", .pystr "需要提供 content")], mem)
  else
    match pyLen content with
    | .error e => .error e
    | .ok n =>
        match (if cfg.MAX_MEMORY_CHARS < n
               then pySliceUpTo content cfg.MAX_MEMORY_CHARS
               else .ok content) with
        | .error e => .error e
        | .ok content2 =>
            .ok ([("ok", .pybool true), ("content", content2)],
                 save_memories content2 mem)

/-- Python `text[-n:]`: for `n = 0` this is the whole string (`text[-0:]`
is `text[0:]`), otherwise the last `min n (length)` characters. -/
def pyTailFrom (s : String) (n : Nat) : String :=
  if n = 0 then s else s.drop (s.length - n)

/-- src/tools.py `_truncate_text`: texts no longer than `max_chars` pass
through; longer texts keep a `max_chars // 2`-character head and tail around
a fixed marker. -/
def truncate_text (text : String) (max_chars : Nat) : String :=
  if text.length ≤ max_chars then text
  else
    let half := max_chars / 2
    text.take half ++ "\n...<truncated>...\n" ++ pyTailFrom text half

/-- src/tools.py `run_python_tool`: strip the code, reject empty code, run it
through the subprocess capability, cap both output streams, and map the exit
status to `ok`.  Timeouts and runner failures are caught and reported as
`ok: false` dicts — this function never raises. -/
def run_python_tool (cfg : Config) (env : Env) (code : String) : ToolResult :=
  let code2 := code.trim
  if code2 = "" then [("ok", .pybool false), ("error", .pystr "code is empty")]
  else
    match env.exec code2 with
    | .completed rc out err =>
        [("ok", .pybool (rc == 0)),
         ("returncode", .pyint rc),
         ("stdout", .pystr (truncate_text out cfg.PYTHON_TOOL_MAX_OUTPUT_CHARS)),
         ("stderr", .pystr (truncate_text err cfg.PYTHON_TOOL_MAX_OUTPUT_CHARS))]
    | .timedOut =>
        [("ok", .pybool false),
         ("error", .pystr ("python execution timed out after "
                            ++ toString cfg.PYTHON_TOOL_TIMEOUT_SECONDS ++ "s"))]
    | .failed msg =>
        [("ok", .pybool false), ("error", .pystr msg)]

/-- src/tools.py `TOOLS`: the full registry of tool schemas, as literal
dicts.  The memory tool's description interpolates `MAX_MEMORY_CHARS`. -/
def TOOLS (cfg : Config) : List PyValue :=
  [.pydict
    [("type", .pystr "function"),
     ("function", .pydict
       [("name", .pystr "python_exec"),
        ("description", .pystr "执行一段 Python 代码并返回 stdout/stderr/返回码。适合计算、数据处理和验证中间结果。"),
        ("parameters", .pydict
          [("type", .pystr "object"),
           ("properties", .pydict
             [("code", .pydict
               [("type", .pystr "string"),
                ("description", .pystr "要执行的 Python 代码")])]),
           ("required", .pylist [.pystr "code"])])])],
   .pydict
    [("type", .pystr "function"),
     ("function", .pydict
       [("name", .pystr "memory_tool"),
        ("description", .pystr
          ("覆盖写入关于用户的长期记忆（偏好、习惯、近期行为摘要）。每次调用都会用新内容完整替换旧记忆，请将所有需要保留的信息一次性写入。内容限制为 "
            ++ toString cfg.MAX_MEMORY_CHARS ++ " 字符，超过部分自动截断。")),
        ("parameters", .pydict
          [("type", .pystr "object"),
           ("properties", .pydict
             [("content", .pydict
               [("type", .pystr "string"),
                ("description", .pystr ("要保存的全部记忆内容，不超过 "
                                         ++ toString cfg.MAX_MEMORY_CHARS ++ " 字符"))])]),
           ("required", .pylist [.pystr "content"])])])]]

/-- src/tools.py `_normalize_tool_arguments`: dicts pass through unchanged;
strings are JSON-decoded, falling back to `{"code": <raw string>}` when the
decode raises or yields a non-dict; every other shape becomes `{}`. -/
def normalize_tool_arguments (env : Env) (raw : PyValue) : List (String × PyValue) :=
  match raw with
  | .pydict d => d
  | .pystr s =>
      match env.jsonLoads s with
      | some (.pydict d) => d
      | some _ => [("code", .pystr s)]
      | none => [("code", .pystr s)]
  | _ => []

/-- src/tools.py `dispatch_tool`: normalize the raw arguments, then route by
tool name; unknown names return an `unknown tool` error dict.  The
`memory_tool` branch can raise (see `run_memory_tool`), which propagates —
hence the `Except` result. -/
def dispatch_tool (cfg : Config) (env : Env) (mem : MemState)
    (tool_name : String) (raw : PyValue) : Except Unit (ToolResult × MemState) :=
  let args := normalize_tool_arguments env raw
  if tool_name = "python_exec" then
    .ok (run_python_tool cfg env (pyStrFun (pyGet args "code" (.pystr ""))), mem)
  else if tool_name = "memory_tool" then
    run_memory_tool cfg mem (pyGet args "content" .pynone)
  else
    .ok ([("ok", .pybool false), ("error", .pystr ("unknown tool: " ++ tool_name))], mem)

/-- A tool call as delivered by the model client: an optional correlation id
and an optional `function` object with name and arguments.
`tool_call.get("function") or \x7b\x7d` maps an absent/falsy object to
`Option.none`; an absent `arguments` key is the default `pynone`. -/
structure FunctionData where
  name : Option String := Option.none
  arguments : PyValue := PyValue.pynone

/-- See `FunctionData`. -/
structure ToolCall where
  id : Option String := Option.none
  function : Option FunctionData := Option.none

/-- One streamed chunk's `message` fields, as read by the loop
(`msg.get("thinking")`, `msg.get("content")`, `msg.get("tool_calls") or []`).
A chunk with an absent or falsy `message` is the all-empty chunk. -/
structure Chunk where
  thinking : Option String := Option.none
  content : Option String := Option.none
  tool_calls : List ToolCall := []

/-- A conversation message dict; optional keys are `Option` fields and the
absent `tool_calls` key is the empty list. -/
structure Message where
  role : String
  content : Option String := Option.none
  thinking : Option String := Option.none
  tool_calls : List ToolCall := []
  name : Option String := Option.none
  tool_call_id : Option String := Option.none

/-- The loop's event dicts (src/app.py lines 60-66). -/
inductive Event where
  | thinking (text : String)
  | content (text : String)
  | tool_request (tool : String) (args : PyValue)
  | tool_result (tool : String) (result : ToolResult)

/-- `function_data.get("name", "")` after `tool_call.get("function") or \x7b\x7d`. -/
def toolNameOf (tc : ToolCall) : String :=
  match tc.function with
  | some f => f.name.getD ""
  | none => ""

/-- `function_data.get("arguments")` — the raw value handed to `dispatch_tool`. -/
def rawArgsOf (tc : ToolCall) : PyValue :=
  match tc.function with
  | some f => f.arguments
  | none => .pynone

/-- `function_data.get("arguments") or \x7b\x7d` — the value carried by the
`tool_request` event. -/
def eventArgsOf (tc : ToolCall) : PyValue :=
  if truthy (rawArgsOf tc) then rawArgsOf tc else .pydict []

/-- Per-round accumulator: emitted events plus the collected content
fragments, thinking fragments and latest tool-call set
(src/app.py lines 78-95). -/
structure RoundAcc where
  events : List Event
  contents : List String
  thinkings : List String
  toolCalls : List ToolCall

/-- Process one streamed chunk: emit-and-collect a non-empty thinking
fragment, then a non-empty content fragment; a non-empty tool-call set
replaces any earlier one (the latest set observed in the round wins). -/
def stepChunk (acc : RoundAcc) (c : Chunk) : RoundAcc :=
  let acc1 :=
    match c.thinking with
    | some s =>
        if s ≠ "" then
          { acc with events := acc.events ++ [.thinking s],
                     thinkings := acc.thinkings ++ [s] }
        else acc
    | none => acc
  let acc2 :=
    match c.content with
    | some s =>
        if s ≠ "" then
          { acc1 with events := acc1.events ++ [.content s],
                      contents := acc1.contents ++ [s] }
        else acc1
    | none => acc1
  if c.tool_calls.isEmpty then acc2 else { acc2 with toolCalls := c.tool_calls }

/-- Fold `stepChunk` over one round's chunk stream. -/
def collectRound (chunks : List Chunk) : RoundAcc :=
  chunks.foldl stepChunk ⟨[], [], [], []⟩

/-- Build the round's assistant message (src/app.py lines 97-106): join and
strip the collected fragments, include each field only when non-empty. -/
def buildAssistantMsg (contents thinkings : List String) (tcs : List ToolCall) : Message :=
  let full_content := (String.join contents).trim
  let full_thinking := (String.join thinkings).trim
  { role := "assistant",
    content := if full_content ≠ "" then some full_content else Option.none,
    thinking := if full_thinking ≠ "" then some full_thinking else Option.none,
    tool_calls := tcs }

/-- `assistant_msg.keys() - \x7b"role"\x7d` is non-empty: the message carries
at least one of content, thinking, tool_calls. -/
def assistantHasPayload (m : Message) : Bool :=
  m.content.isSome || m.thinking.isSome || !m.tool_calls.isEmpty

/-- Append the round's assistant message to the context only when it has a
payload (src/app.py lines 107-108). -/
def appendAssistant (ctx : List Message) (contents thinkings : List String)
    (tcs : List ToolCall) : List Message :=
  let m := buildAssistantMsg contents thinkings tcs
  if assistantHasPayload m then ctx ++ [m] else ctx

/-- Loop-visible mutable state: the working context list and the memory file. -/
structure LoopSt where
  ctx : List Message
  mem : MemState

/-- How a loop invocation ended: the model stopped calling tools, the round
limit was hit, or an uncaught exception escaped (a raising `dispatch_tool`). -/
inductive Term where
  | natural
  | limit
  | raised
deriving DecidableEq

/-- Result of a loop invocation: the emitted events, how it ended, the final
state, and how many times the model client was invoked. -/
structure LoopOut where
  events : List Event
  term : Term
  st : LoopSt
  modelCalls : Nat

/-- The tool message appended after a dispatch (src/app.py lines 126-134):
name, JSON-encoded result, and the correlation id when truthy. -/
def mkToolMsg (env : Env) (tool_name : String) (res : ToolResult)
    (id? : Option String) : Message :=
  let base : Message := { role := "tool", name := some tool_name,
                          content := some (env.dumps res) }
  match id? with
  | some i => if i ≠ "" then { base with tool_call_id := some i } else base
  | none => base

/-- Execute the round's captured tool calls in order (src/app.py lines
115-134): emit `tool_request`, dispatch, emit `tool_result`, append the tool
message.  A raising dispatch aborts after its `tool_request` event, with the
flag `false`; `dispatch_tool` failures that return `ok: false` dicts are
ordinary results and do not abort. -/
def runToolCalls (cfg : Config) (env : Env) :
    List ToolCall → LoopSt → List Event × LoopSt × Bool
  | [], st => ([], st, true)
  | tc :: rest, st =>
      let nm := toolNameOf tc
      let reqEv := Event.tool_request nm (eventArgsOf tc)
      match dispatch_tool cfg env st.mem nm (rawArgsOf tc) with
      | .error _ => ([reqEv], st, false)
      | .ok (res, mem2) =>
          let st2 : LoopSt := { ctx := st.ctx ++ [mkToolMsg env nm res tc.id],
                                mem := mem2 }
          let r := runToolCalls cfg env rest st2
          (reqEv :: Event.tool_result nm res :: r.1, r.2.1, r.2.2)

/-- `tools=TOOLS if tools is None else tools` (src/app.py line 74). -/
def effectiveTools (cfg : Config) (tools : Option (List PyValue)) : List PyValue :=
  match tools with
  | some t => t
  | none => TOOLS cfg

/-- The fixed user-facing round-limit message (src/app.py line 137). -/
def roundLimitMessage : String := "工具调用轮次达到上限，请缩小问题范围后重试。"

/-- The round recursion of `_streaming_loop` (src/app.py lines 69-137), on
the number of remaining rounds.  `client` abstracts `client.chat` — it maps
the generation options (temperature and token budget, opaque in `Opt`), the
tool schemas and the current context to the round's chunk stream.  With no
rounds left the loop emits the round-limit content event; otherwise it runs
one model round, appends the assistant message when it has a payload,
returns on a round without tool calls, and else executes the tools and
recurses. -/
def loopRounds {Opt : Type} (client : Opt → List PyValue → List Message → List Chunk)
    (opts : Opt) (toolsArg : Option (List PyValue)) (cfg : Config) (env : Env) :
    Nat → LoopSt → LoopOut
  | 0, st => { events := [.content roundLimitMessage], term := .limit,
               st := st, modelCalls := 0 }
  | n + 1, st =>
      let chunks := client opts (effectiveTools cfg toolsArg) st.ctx
      let acc := collectRound chunks
      let st1 : LoopSt :=
        { st with ctx := appendAssistant st.ctx acc.contents acc.thinkings acc.toolCalls }
      if acc.toolCalls.isEmpty then
        { events := acc.events, term := .natural, st := st1, modelCalls := 1 }
      else
        let r := runToolCalls cfg env acc.toolCalls st1
        if r.2.2 then
          let rest := loopRounds client opts toolsArg cfg env n r.2.1
          { events := acc.events ++ r.1 ++ rest.events, term := rest.term,
            st := rest.st, modelCalls := 1 + rest.modelCalls }
        else
          { events := acc.events ++ r.1, term := .raised, st := r.2.1,
            modelCalls := 1 }

/-- `_streaming_loop`: copy the caller's conversation into the working
context (`ctx = list(conversation)`, src/app.py line 67) and run up to
`MAX_TOOL_ROUNDS` rounds. -/
def streaming_loop {Opt : Type} (client : Opt → List PyValue → List Message → List Chunk)
    (opts : Opt) (conversation : List Message) (toolsArg : Option (List PyValue))
    (cfg : Config) (env : Env) (mem : MemState) : LoopOut :=
  loopRounds client opts toolsArg cfg env cfg.MAX_TOOL_ROUNDS
    { ctx := conversation, mem := mem }

/-- The caller-visible mutable cells around one loop invocation: the
caller's own conversation list and the shared memory file. -/
structure CallerHeap where
  conversation : List Message
  mem : MemState

/-- One loop invocation as seen from the caller: line 67 copies the
caller's list, the loop appends only to the copy, and the only shared cell
it writes through is the memory file. -/
def streaming_loop_heap {Opt : Type}
    (client : Opt → List PyValue → List Message → List Chunk) (opts : Opt)
    (toolsArg : Option (List PyValue)) (cfg : Config) (env : Env)
    (h : CallerHeap) : LoopOut × CallerHeap :=
  let out := streaming_loop client opts h.conversation toolsArg cfg env h.mem
  (out, { conversation := h.conversation, mem := out.st.mem })

/-- src/app.py line 15: the registry filtered to the schemas whose
`function.name` equals `"python_exec"`. -/
def PYTHON_ONLY_TOOLS (cfg : Config) : List PyValue :=
  (TOOLS cfg).filter fun t =>
    pyEqStr (dictGetV (dictGetV t "function" (.pydict [])) "name" .pynone) "python_exec"

/-- The `tools=` argument `chat` passes to the loop on its streaming path
(src/app.py line 165). -/
def chat_stream_tools (cfg : Config) : List PyValue := PYTHON_ONLY_TOOLS cfg

/-- The `tools=` argument `chat` passes to the loop on its non-streaming
path (src/app.py line 179). -/
def chat_nonstream_tools (cfg : Config) : List PyValue := PYTHON_ONLY_TOOLS cfg

/-- The `tools=` argument `chat_team` passes for each member's loop
(src/app.py line 215). -/
def team_member_tools (cfg : Config) : List PyValue := PYTHON_ONLY_TOOLS cfg

/-- The `tools=` argument `chat_team` passes for the leader's loop
(src/app.py line 246). -/
def team_leader_tools (cfg : Config) : List PyValue := PYTHON_ONLY_TOOLS cfg

/-- Modelled from the spec: `config.py`'s `TEAM_MEMBERS` / `TEAM_LEADER` are
not in the sources.  The spec describes them as static configuration records
`\x7bid, name, display_name, avatar, system_prompt\x7d`, a fixed ordered
roster of three members (Rex, Nova, Vera) and one leader (Sage); the
development is parametric in the roster. -/
structure TeamMember where
  id : String
  name : String
  display_name : String
  avatar : String
  system_prompt : String

/-- The metadata dict a framing event carries:
`\x7bk: member[k] for k in ("id", "name", "display_name", "avatar")\x7d`. -/
structure PersonaMeta where
  id : String
  name : String
  display_name : String
  avatar : String
deriving DecidableEq

/-- Extract the framing metadata of a persona. -/
def metaOf (m : TeamMember) : PersonaMeta :=
  { id := m.id, name := m.name, display_name := m.display_name, avatar := m.avatar }

/-- One yielded SSE payload of the team generator, abstracted by its content:
a loop event run through `_sse_from_event` (these four encodings are never
the empty string, so none is dropped by the `if sse:` guard), a team framing
event, the error payload of the enclosing `except`, or the `[DONE]`
sentinel. -/
inductive WireEvent where
  | sse (e : Event)
  | member_start (meta : PersonaMeta)
  | member_end (id : String)
  | leader_start (meta : PersonaMeta)
  | leader_end (id : String)
  | errorEv
  | done

/-- A member's context: its system prompt prepended to the request messages
(src/app.py lines 207-210). -/
def memberCtx (outgoing : List Message) (m : TeamMember) : List Message :=
  { role := "system", content := some m.system_prompt } :: outgoing

/-- `full_content`: the concatenation of the `content` event texts of one
loop run (src/app.py lines 219-220). -/
def contentConcat (evs : List Event) : String :=
  String.join (evs.filterMap fun e =>
    match e with
    | .content t => some t
    | _ => Option.none)

/-- `member_answers.get(key, default)` (src/app.py line 228); the answers
dict is modelled as an assoc list with newest entry first. -/
def dictGetS (d : List (String × String)) (k default : String) : String :=
  match d.find? (fun p => p.1 == k) with
  | some p => p.2
  | none => default

/-- The member phase of `chat_team` (src/app.py lines 205-223): for each
member in roster order, emit the `member_start` frame, run the loop with the
python-only registry forwarding every event, record the member's
concatenated content under its id, and emit the `member_end` frame.  A loop
aborted by a raising dispatch propagates into the enclosing `except`: the
error payload is emitted and everything after it — including the member's
`member_end` frame, the remaining members and the leader — is skipped
(flag `false`). -/
def runMembers {Opt : Type} (client : Opt → List PyValue → List Message → List Chunk)
    (opts : Opt) (cfg : Config) (env : Env) (outgoing : List Message) :
    List TeamMember → List (String × String) → MemState →
    List WireEvent × List (String × String) × MemState × Bool
  | [], answers, mem => ([], answers, mem, true)
  | m :: rest, answers, mem =>
      let out := streaming_loop client opts (memberCtx outgoing m)
        (some (team_member_tools cfg)) cfg env mem
      let evs := WireEvent.member_start (metaOf m) :: out.events.map WireEvent.sse
      if out.term = Term.raised then
        (evs ++ [WireEvent.errorEv], answers, out.st.mem, false)
      else
        let answers2 := (m.id, contentConcat out.events) :: answers
        let r := runMembers client opts cfg env outgoing rest answers2 out.st.mem
        (evs ++ [WireEvent.member_end m.id] ++ r.1, r.2.1, r.2.2.1, r.2.2.2)

/-- `original_question` (src/app.py line 226): the content of the last
request message, or `""` for an empty request. -/
def originalQuestion (outgoing : List Message) : String :=
  match outgoing.getLast? with
  | some m => m.content.getD ""
  | none => ""

/-- `member_sections` (src/app.py lines 227-230): one `<id>...</id>` block
per configured member, joined by blank lines, looking each member's answer
up with the `（无回答）` placeholder as the lookup default. -/
def memberSections (members : List TeamMember) (answers : List (String × String)) : String :=
  String.intercalate "\n\n" (members.map fun m =>
    "<" ++ m.id ++ ">\n" ++ dictGetS answers m.id "（无回答）" ++ "\n</" ++ m.id ++ ">")

/-- `leader_user_msg` (src/app.py lines 233-236): the original question plus
the member sections as background. -/
def leaderUserMsg (outgoing : List Message) (members : List TeamMember)
    (answers : List (String × String)) : String :=
  "问题：" ++ originalQuestion outgoing ++ "\n\n背景参考（内部分析，仅供参考）：\n"
    ++ memberSections members answers

/-- `leader_ctx` (src/app.py lines 238-241). -/
def leaderCtx (leader : TeamMember) (msg : String) : List Message :=
  [{ role := "system", content := some leader.system_prompt },
   { role := "user", content := some msg }]

/-- The full `chat_team` generator output (src/app.py lines 199-255):
member phase, then the leader's framed loop run, then `[DONE]`; a raising
leader loop ends in the error payload instead of its `leader_end` frame. -/
def chat_team_events {Opt : Type} (client : Opt → List PyValue → List Message → List Chunk)
    (opts : Opt) (cfg : Config) (env : Env) (members : List TeamMember)
    (leader : TeamMember) (outgoing : List Message) (mem : MemState) : List WireEvent :=
  let r := runMembers client opts cfg env outgoing members [] mem
  if r.2.2.2 = false then r.1
  else
    let lout := streaming_loop client opts
      (leaderCtx leader (leaderUserMsg outgoing members r.2.1))
      (some (team_leader_tools cfg)) cfg env r.2.2.1
    let levs := WireEvent.leader_start (metaOf leader) :: lout.events.map WireEvent.sse
    if lout.term = Term.raised then r.1 ++ levs ++ [WireEvent.errorEv]
    else r.1 ++ levs ++ [WireEvent.leader_end leader.id, WireEvent.done]

/-- The leader's user message as produced by a full `chat_team` run — the
`leaderUserMsg` built from the answers the member phase recorded. -/
def chat_team_leader_msg {Opt : Type} (client : Opt → List PyValue → List Message → List Chunk)
    (opts : Opt) (cfg : Config) (env : Env) (members : List TeamMember)
    (outgoing : List Message) (mem : MemState) : String :=
  let r := runMembers client opts cfg env outgoing members [] mem
  leaderUserMsg outgoing members r.2.1

/-! ### Helper notions used by the theorems -/

/-- Whether an `Except` computation completed without raising. -/
def isOkE {α : Type} : Except Unit α → Bool
  | .ok _ => true
  | .error _ => false

/-- The adjacent `tool_request`/`tool_result` event pair one dispatched tool
call contributes to the stream. -/
def pairEvents (tc : ToolCall) (res : ToolResult) : List Event :=
  [.tool_request (toolNameOf tc) (eventArgsOf tc),
   .tool_result (toolNameOf tc) res]

/-- A tool call whose dispatch never raises, whatever the memory state. -/
def dispatchSucceeds (cfg : Config) (env : Env) (tc : ToolCall) : Prop :=
  ∀ mem, isOkE (dispatch_tool cfg env mem (toolNameOf tc) (rawArgsOf tc)) = true

/-- Whether a `json.loads` outcome is a successfully decoded dict. -/
def decodesToDict : Option PyValue → Bool
  | some (.pydict _) => true
  | _ => false

/-- Shape test: is the value a dict? -/
def isDictV : PyValue → Bool
  | .pydict _ => true
  | _ => false

/-- Shape test: is the value a string? -/
def isStrV : PyValue → Bool
  | .pystr _ => true
  | _ => false

/-- The framing content of a team wire event, if it is a framing event. -/
inductive FrameTag where
  | mstart (id : String)
  | mend (id : String)
  | lstart (id : String)
  | lend (id : String)
deriving DecidableEq

/-- Project a team wire event to its framing tag; loop events, errors and
the terminator are not framing events. -/
def framingOf : WireEvent → Option FrameTag
  | .member_start m => some (.mstart m.id)
  | .member_end i => some (.mend i)
  | .leader_start m => some (.lstart m.id)
  | .leader_end i => some (.lend i)
  | _ => Option.none

/-! ### Concrete fixtures for witnesses and counterexamples -/

/-- A sample configuration (the gate constants are config-file values;
all theorems are parametric in them, witnesses pick these). -/
def sampleConfig : Config :=
  { MAX_TOOL_ROUNDS := 3, PYTHON_TOOL_TIMEOUT_SECONDS := 30,
    PYTHON_TOOL_MAX_OUTPUT_CHARS := 2000, MAX_MEMORY_CHARS := 5 }

/-- A sample environment with trivial external capabilities. -/
def sampleEnv : Env :=
  { jsonLoads := fun _ => Option.none, dumps := fun _ => "",
    exec := fun _ => .completed 0 "" "" }

/-- A well-formed `python_exec` tool call. -/
def pyExecCall : ToolCall :=
  { function := some { name := some "python_exec",
                       arguments := .pydict [("code", .pystr "print(1)")] } }

/-- A model client that requests one `python_exec` call on every invocation. -/
def alwaysPyExecClient : Unit → List PyValue → List Message → List Chunk :=
  fun _ _ _ => [{ tool_calls := [pyExecCall] }]

/-- A `memory_tool` call whose `content` argument is the integer `1`;
dispatching it raises `TypeError` at `len(content)`. -/
def intContentCall : ToolCall :=
  { function := some { name := some "memory_tool",
                       arguments := .pydict [("content", .pyint 1)] } }

/-- A model client that requests the raising `memory_tool` call on every
invocation. -/
def alwaysIntContentClient : Unit → List PyValue → List Message → List Chunk :=
  fun _ _ _ => [{ tool_calls := [intContentCall] }]

/-- A model client that streams one content fragment and never calls tools. -/
def contentOnlyClient : Unit → List PyValue → List Message → List Chunk :=
  fun _ _ _ => [{ content := some "hello" }]

/-- A model client that streams one thinking fragment, no content, no tools. -/
def thinkingOnlyClient : Unit → List PyValue → List Message → List Chunk :=
  fun _ _ _ => [{ thinking := some "hmm" }]

/-- Team roster fixtures (the spec's Rex / Nova / Vera and leader Sage). -/
def teamRex : TeamMember :=
  { id := "rex", name := "Rex", display_name := "RexD", avatar := "rex.png",
    system_prompt := "sp-rex" }

/-- See `teamRex`. -/
def teamNova : TeamMember :=
  { id := "nova", name := "Nova", display_name := "NovaD", avatar := "nova.png",
    system_prompt := "sp-nova" }

/-- See `teamRex`. -/
def teamVera : TeamMember :=
  { id := "vera", name := "Vera", display_name := "VeraD", avatar := "vera.png",
    system_prompt := "sp-vera" }

/-- See `teamRex`. -/
def teamSage : TeamMember :=
  { id := "sage", name := "Sage", display_name := "SageD", avatar := "sage.png",
    system_prompt := "sp-sage" }

/-- A one-question request body. -/
def sampleOutgoing : List Message := [{ role := "user", content := some "q?" }]

/-! ### String length helpers -/

theorem string_length_data (s : String) : s.length = s.data.length := by
  rcases s with ⟨l⟩
  rfl

theorem string_length_take (s : String) (n : Nat) :
    (s.take n).length = min n s.length := by
  rw [String.take_eq, String.mk_length, List.length_take, string_length_data]

theorem string_length_drop (s : String) (n : Nat) :
    (s.drop n).length = s.length - n := by
  rw [String.drop_eq, String.mk_length, List.length_drop, string_length_data]

theorem marker_length : ("\n...<truncated>...\n" : String).length = 19 := rfl

/-- **C4 (amended).** A text whose length equals the cap is returned
unmodified.  A text of length cap+1 is rewritten to an equal-sized prefix
and suffix (each `cap / 2` characters, for caps of at least 2) around the
truncation marker — but the result's length is `2 * (cap / 2) + 19`, which
is never strictly less than the original's `cap + 1`: the marker adds 19
characters while the elision removes at most 2. -/
theorem truncate_boundary_behavior (cap : Nat) (text : String) :
    (text.length = cap → truncate_text text cap = text)
    ∧ (text.length = cap + 1 →
        truncate_text text cap
          = text.take (cap / 2) ++ "\n...<truncated>...\n" ++ pyTailFrom text (cap / 2)
        ∧ (2 ≤ cap →
            (text.take (cap / 2)).length = cap / 2
            ∧ (pyTailFrom text (cap / 2)).length = cap / 2
            ∧ (truncate_text text cap).length = 2 * (cap / 2) + 19)
        ∧ ¬ (truncate_text text cap).length < text.length) := by
  constructor
  · intro h
    unfold truncate_text
    rw [if_pos (by omega)]
  · intro h
    have hnot : ¬ text.length ≤ cap := by omega
    have heq : truncate_text text cap
        = text.take (cap / 2) ++ "\n...<truncated>...\n" ++ pyTailFrom text (cap / 2) := by
      unfold truncate_text
      rw [if_neg hnot]
    have htake : (text.take (cap / 2)).length = min (cap / 2) text.length :=
      string_length_take text (cap / 2)
    have hlen : (truncate_text text cap).length
        = (text.take (cap / 2)).length + 19 + (pyTailFrom text (cap / 2)).length := by
      rw [heq, String.length_append, String.length_append, marker_length]
    refine ⟨heq, ?_, ?_⟩
    · intro hcap
      have hz : cap / 2 ≠ 0 := by omega
      have htail : (pyTailFrom text (cap / 2)).length
          = text.length - (text.length - cap / 2) := by
        unfold pyTailFrom
        rw [if_neg hz, string_length_drop]
      refine ⟨by omega, by omega, by omega⟩
    · by_cases hz : cap / 2 = 0
      · have htail : (pyTailFrom text (cap / 2)).length = text.length := by
          unfold pyTailFrom
          rw [if_pos hz]
        omega
      · have htail : (pyTailFrom text (cap / 2)).length
            = text.length - (text.length - cap / 2) := by
          unfold pyTailFrom
          rw [if_neg hz, string_length_drop]
        omega

/-- **C4 counterexample.** With output cap 8, the 9-character text
`"abcdefghi"` is "truncated" to a 27-character result — not strictly
shorter than the original, contradicting the claim (this holds for every
cap; the amended theorem proves it in general). -/
theorem truncate_at_cap_plus_one_not_shorter :
    ("abcdefghi" : String).length = 8 + 1
    ∧ truncate_text "abcdefghi" 8 = "abcd\n...<truncated>...\nfghi"
    ∧ (truncate_text "abcdefghi" 8).length = 27
    ∧ ¬ (truncate_text "abcdefghi" 8).length < ("abcdefghi" : String).length := by
  refine ⟨rfl, rfl, rfl, ?_⟩
  have h27 : (truncate_text "abcdefghi" 8).length = 27 := rfl
  have h9 : ("abcdefghi" : String).length = 9 := rfl
  omega

/-- Witness for `truncate_boundary_behavior` at cap 8: an 8-character text
passes through unchanged, and the 9-character text is not shortened. -/
theorem truncate_boundary_behavior_witness :
    truncate_text "abcdefgh" 8 = "abcdefgh"
    ∧ ¬ (truncate_text "abcdefghi" 8).length < ("abcdefghi" : String).length :=
  ⟨(truncate_boundary_behavior 8 "abcdefgh").1 rfl,
   ((truncate_boundary_behavior 8 "abcdefghi").2 rfl).2.2⟩

/-! ### Memory tool and dispatch lemmas -/

theorem run_memory_tool_falsy (cfg : Config) (mem : MemState) (v : PyValue)
    (h : truthy v = false) :
    run_memory_tool cfg mem v
      = .ok ([("ok", .pybool false), ("error", .pystr "需要提供 content")], mem) := by
  unfold run_memory_tool
  rw [if_pos h]

theorem run_memory_tool_pystr_short (cfg : Config) (mem : MemState) (c : String)
    (h : c ≠ "") (h2 : ¬ cfg.MAX_MEMORY_CHARS < c.length) :
    run_memory_tool cfg mem (.pystr c)
      = .ok ([("ok", .pybool true), ("content", .pystr c)], some (.pystr c)) := by
  unfold run_memory_tool
  rw [if_neg (by simp [truthy, h])]
  simp only [pyLen]
  rw [if_neg h2]
  rfl

theorem run_memory_tool_pystr_long (cfg : Config) (mem : MemState) (c : String)
    (h : c ≠ "") (h2 : cfg.MAX_MEMORY_CHARS < c.length) :
    run_memory_tool cfg mem (.pystr c)
      = .ok ([("ok", .pybool true),
              ("content", .pystr (c.take cfg.MAX_MEMORY_CHARS))],
             some (.pystr (c.take cfg.MAX_MEMORY_CHARS))) := by
  unfold run_memory_tool
  rw [if_neg (by simp [truthy, h])]
  simp only [pyLen]
  rw [if_pos h2]
  simp only [pySliceUpTo]
  rfl

theorem run_memory_tool_pystr_ok (cfg : Config) (mem : MemState) (s : String) :
    isOkE (run_memory_tool cfg mem (.pystr s)) = true := by
  by_cases hs : s = ""
  · rw [run_memory_tool_falsy cfg mem _ (by simp [truthy, hs])]
    rfl
  · by_cases h2 : cfg.MAX_MEMORY_CHARS < s.length
    · rw [run_memory_tool_pystr_long cfg mem s hs h2]
      rfl
    · rw [run_memory_tool_pystr_short cfg mem s hs h2]
      rfl

/-- **C8 (confirmed).** Writing a non-empty string of length at most
`MAX_MEMORY_CHARS` through the memory tool and then reading the store
returns exactly that string; writing a longer string and reading returns
exactly its first `MAX_MEMORY_CHARS` characters. -/
theorem memory_write_read_roundtrip (cfg : Config) (mem : MemState) (c : String) :
    (c ≠ "" → c.length ≤ cfg.MAX_MEMORY_CHARS →
      ∃ res mem2, run_memory_tool cfg mem (.pystr c) = .ok (res, mem2)
        ∧ load_memories mem2 = c)
    ∧ (cfg.MAX_MEMORY_CHARS < c.length →
      ∃ res mem2, run_memory_tool cfg mem (.pystr c) = .ok (res, mem2)
        ∧ load_memories mem2 = c.take cfg.MAX_MEMORY_CHARS) := by
  constructor
  · intro hne hle
    exact ⟨_, _, run_memory_tool_pystr_short cfg mem c hne (by omega), rfl⟩
  · intro hlt
    have hne : c ≠ "" := by
      intro h0
      rw [h0] at hlt
      exact absurd hlt (by simp)
    exact ⟨_, _, run_memory_tool_pystr_long cfg mem c hne hlt, rfl⟩

/-- Witness for `memory_write_read_roundtrip` with cap 5: writing `"ab"`
reads back `"ab"`; writing `"abcdefg"` reads back its first 5 characters. -/
theorem memory_write_read_roundtrip_witness :
    (∃ res mem2, run_memory_tool sampleConfig Option.none (.pystr "ab") = .ok (res, mem2)
      ∧ load_memories mem2 = "ab")
    ∧ (∃ res mem2, run_memory_tool sampleConfig Option.none (.pystr "abcdefg") = .ok (res, mem2)
      ∧ load_memories mem2 = ("abcdefg" : String).take sampleConfig.MAX_MEMORY_CHARS) :=
  ⟨(memory_write_read_roundtrip sampleConfig Option.none "ab").1 (by decide) (by decide),
   (memory_write_read_roundtrip sampleConfig Option.none "abcdefg").2 (by decide)⟩

/-- **C7 (confirmed).** Argument normalization: dict inputs pass through
unchanged; string inputs that JSON-decode to a dict are replaced by that
dict; string inputs whose decode raises or yields a non-dict become
`{"code": <raw string>}` (braces elided); inputs of any other shape become
the empty dict. -/
theorem normalize_tool_arguments_spec (env : Env) :
    (∀ d, normalize_tool_arguments env (.pydict d) = d)
    ∧ (∀ s d, env.jsonLoads s = some (.pydict d) →
        normalize_tool_arguments env (.pystr s) = d)
    ∧ (∀ s, decodesToDict (env.jsonLoads s) = false →
        normalize_tool_arguments env (.pystr s) = [("code", .pystr s)])
    ∧ (∀ v, isDictV v = false → isStrV v = false →
        normalize_tool_arguments env v = []) := by
  refine ⟨fun d => rfl, ?_, ?_, ?_⟩
  · intro s d h
    simp only [normalize_tool_arguments, h]
  · intro s h
    cases hj : env.jsonLoads s with
    | none => simp only [normalize_tool_arguments, hj]
    | some v =>
      rw [hj] at h
      cases v with
      | pynone => simp only [normalize_tool_arguments, hj]
      | pybool b => simp only [normalize_tool_arguments, hj]
      | pyint n => simp only [normalize_tool_arguments, hj]
      | pystr t => simp only [normalize_tool_arguments, hj]
      | pylist xs => simp only [normalize_tool_arguments, hj]
      | pydict d => simp [decodesToDict] at h
  · intro v h1 h2
    cases v with
    | pynone => rfl
    | pybool b => rfl
    | pyint n => rfl
    | pystr t => simp [isStrV] at h2
    | pylist xs => rfl
    | pydict d => simp [isDictV] at h1

/-- An environment whose JSON decoder recognizes two fixed strings, used to
exercise every branch of argument normalization. -/
def jsonSampleEnv : Env :=
  { jsonLoads := fun s =>
      if s = "obj" then some (.pydict [("k", .pyint 1)])
      else if s = "arr" then some (.pylist [])
      else Option.none,
    dumps := fun _ => "",
    exec := fun _ => .completed 0 "" "" }

/-- Witness for `normalize_tool_arguments_spec` on concrete inputs of every
shape. -/
theorem normalize_tool_arguments_spec_witness :
    normalize_tool_arguments jsonSampleEnv (.pydict [("a", .pynone)]) = [("a", .pynone)]
    ∧ normalize_tool_arguments jsonSampleEnv (.pystr "obj") = [("k", .pyint 1)]
    ∧ normalize_tool_arguments jsonSampleEnv (.pystr "arr") = [("code", .pystr "arr")]
    ∧ normalize_tool_arguments jsonSampleEnv (.pystr "bad") = [("code", .pystr "bad")]
    ∧ normalize_tool_arguments jsonSampleEnv (.pyint 7) = [] :=
  ⟨(normalize_tool_arguments_spec jsonSampleEnv).1 _,
   (normalize_tool_arguments_spec jsonSampleEnv).2.1 "obj" _ rfl,
   (normalize_tool_arguments_spec jsonSampleEnv).2.2.1 "arr" rfl,
   (normalize_tool_arguments_spec jsonSampleEnv).2.2.1 "bad" rfl,
   (normalize_tool_arguments_spec jsonSampleEnv).2.2.2 (.pyint 7) rfl rfl⟩

/-- **C6 counterexample.** `dispatch_tool` is not total: with the mapping
argument `{"content": 42}` (braces elided) the `memory_tool` branch reaches
`len(42)`, which raises `TypeError` — the call raises instead of returning
a `ToolResult`. -/
theorem dispatch_memory_tool_int_content_raises :
    dispatch_tool sampleConfig sampleEnv Option.none "memory_tool"
      (.pydict [("content", .pyint 42)]) = .error () := rfl

/-- **C6 (amended).** `dispatch_tool` never raises and returns a
`ToolResult` for every unknown tool name (with the exact
`unknown tool: <name>` error) and for every `python_exec` call, whatever
the argument shape; the `memory_tool` branch never raises whenever the
normalized `content` value is a string or is falsy/absent — the shapes its
declared schema admits.  (It can raise on other content shapes, e.g. a
number: see the counterexample.) -/
theorem dispatch_total_on_declared_shapes (cfg : Config) (env : Env) (mem : MemState)
    (name : String) (raw : PyValue) :
    (name ≠ "python_exec" → name ≠ "memory_tool" →
      dispatch_tool cfg env mem name raw
        = .ok ([("ok", .pybool false),
                ("error", .pystr ("unknown tool: " ++ name))], mem))
    ∧ isOkE (dispatch_tool cfg env mem "python_exec" raw) = true
    ∧ ((∃ s, pyGet (normalize_tool_arguments env raw) "content" .pynone = .pystr s)
        ∨ truthy (pyGet (normalize_tool_arguments env raw) "content" .pynone) = false →
       isOkE (dispatch_tool cfg env mem "memory_tool" raw) = true) := by
  refine ⟨?_, ?_, ?_⟩
  · intro h1 h2
    unfold dispatch_tool
    rw [if_neg h1, if_neg h2]
  · unfold dispatch_tool
    rw [if_pos rfl]
    rfl
  · intro h
    unfold dispatch_tool
    rw [if_neg (by decide : ¬ ("memory_tool" : String) = "python_exec"), if_pos rfl]
    rcases h with ⟨s, hs⟩ | hf
    · rw [hs]
      exact run_memory_tool_pystr_ok cfg mem s
    · rw [run_memory_tool_falsy cfg mem _ hf]
      rfl

/-- Witness for `dispatch_total_on_declared_shapes`: an unknown tool name
returns the exact error dict, and a string-content memory write succeeds. -/
theorem dispatch_total_on_declared_shapes_witness :
    dispatch_tool sampleConfig sampleEnv Option.none "foo" .pynone
      = .ok ([("ok", .pybool false), ("error", .pystr ("unknown tool: " ++ "foo"))],
             Option.none)
    ∧ isOkE (dispatch_tool sampleConfig sampleEnv Option.none "memory_tool"
        (.pydict [("content", .pystr "hi")])) = true :=
  ⟨(dispatch_total_on_declared_shapes sampleConfig sampleEnv Option.none "foo" .pynone).1
      (by decide) (by decide),
   (dispatch_total_on_declared_shapes sampleConfig sampleEnv Option.none "memory_tool"
      (.pydict [("content", .pystr "hi")])).2.2 (Or.inl ⟨"hi", rfl⟩)⟩

/-- **C3 counterexample.** The single-agent chat endpoint does not pass the
full registry: at a sample configuration the tools argument it gives the
loop (src/app.py line 165) holds one schema, while the registry holds two —
the `memory_tool` schema is not among the tools the chat endpoint passes. -/
theorem chat_tools_not_full_registry :
    (chat_stream_tools sampleConfig).length = 1
    ∧ (TOOLS sampleConfig).length = 2
    ∧ chat_stream_tools sampleConfig ≠ TOOLS sampleConfig := by
  refine ⟨rfl, rfl, ?_⟩
  intro h
  have hl := congrArg List.length h
  rw [show (chat_stream_tools sampleConfig).length = 1 from rfl,
      show (TOOLS sampleConfig).length = 2 from rfl] at hl
  exact absurd hl (by decide)

/-- **C3 (amended).** Every call site — the single-agent chat endpoint on
both its streaming and non-streaming paths, the team members and the leader
— passes the restricted registry whose only schema is `python_exec`; the
full two-schema registry is only the loop-internal default used when no
tool list is supplied. -/
theorem restricted_registry_at_every_call_site (cfg : Config) :
    chat_stream_tools cfg = PYTHON_ONLY_TOOLS cfg
    ∧ chat_nonstream_tools cfg = PYTHON_ONLY_TOOLS cfg
    ∧ team_member_tools cfg = PYTHON_ONLY_TOOLS cfg
    ∧ team_leader_tools cfg = PYTHON_ONLY_TOOLS cfg
    ∧ (PYTHON_ONLY_TOOLS cfg).map
        (fun t => dictGetV (dictGetV t "function" (.pydict [])) "name" .pynone)
        = [.pystr "python_exec"]
    ∧ (TOOLS cfg).map
        (fun t => dictGetV (dictGetV t "function" (.pydict [])) "name" .pynone)
        = [.pystr "python_exec", .pystr "memory_tool"]
    ∧ effectiveTools cfg Option.none = TOOLS cfg :=
  ⟨rfl, rfl, rfl, rfl, rfl, rfl, rfl⟩

/-- **C5 (code bug).** A member whose loop yields no content text is
represented in the leader's message by an *empty* block, not by the
`（无回答）` placeholder: the member phase always stores an entry (possibly
`""`) under each member's id, so the placeholder lookup default is dead.
With three members that stream only thinking, the leader message built by
the code has empty blocks and differs from the placeholder version the
claim describes. -/
theorem team_silent_member_yields_empty_block_not_placeholder :
    chat_team_leader_msg thinkingOnlyClient () sampleConfig sampleEnv
      [teamRex, teamNova, teamVera] sampleOutgoing Option.none
      = "问题：q?\n\n背景参考（内部分析，仅供参考）：\n<rex>\n\n</rex>\n\n<nova>\n\n</nova>\n\n<vera>\n\n</vera>"
    ∧ ("问题：q?\n\n背景参考（内部分析，仅供参考）：\n<rex>\n\n</rex>\n\n<nova>\n\n</nova>\n\n<vera>\n\n</vera>" : String)
      ≠ "问题：q?\n\n背景参考（内部分析，仅供参考）：\n<rex>\n（无回答）\n</rex>\n\n<nova>\n（无回答）\n</nova>\n\n<vera>\n（无回答）\n</vera>" :=
  ⟨rfl, by decide⟩

/-! ### Context extension lemmas -/

theorem appendAssistant_extends (ctx : List Message) (cc ct : List String)
    (tcs : List ToolCall) :
    ∃ s, appendAssistant ctx cc ct tcs = ctx ++ s := by
  by_cases h : assistantHasPayload (buildAssistantMsg cc ct tcs) = true
  · exact ⟨[buildAssistantMsg cc ct tcs], by simp [appendAssistant, h]⟩
  · exact ⟨[], by simp [appendAssistant, h]⟩

theorem runToolCalls_ctx_extends (cfg : Config) (env : Env) :
    ∀ (tcs : List ToolCall) (st : LoopSt),
      ∃ s, ((runToolCalls cfg env tcs st).2.1).ctx = st.ctx ++ s := by
  intro tcs
  induction tcs with
  | nil => exact fun st => ⟨[], by simp [runToolCalls]⟩
  | cons tc rest ih =>
    intro st
    simp only [runToolCalls]
    cases hd : dispatch_tool cfg env st.mem (toolNameOf tc) (rawArgsOf tc) with
    | error e =>
      exact ⟨[], by simp⟩
    | ok pr =>
      obtain ⟨res, mem2⟩ := pr
      obtain ⟨s, hs⟩ :=
        ih { ctx := st.ctx ++ [mkToolMsg env (toolNameOf tc) res tc.id], mem := mem2 }
      exact ⟨mkToolMsg env (toolNameOf tc) res tc.id :: s, by simp [hs]⟩

theorem loopRounds_ctx_extends {Opt : Type}
    (client : Opt → List PyValue → List Message → List Chunk) (opts : Opt)
    (toolsArg : Option (List PyValue)) (cfg : Config) (env : Env) :
    ∀ (n : Nat) (st : LoopSt),
      ∃ s, (loopRounds client opts toolsArg cfg env n st).st.ctx = st.ctx ++ s := by
  intro n
  induction n with
  | zero => exact fun st => ⟨[], by simp [loopRounds]⟩
  | succ n ih =>
    intro st
    simp only [loopRounds]
    generalize collectRound (client opts (effectiveTools cfg toolsArg) st.ctx) = acc
    obtain ⟨s1, hs1⟩ := appendAssistant_extends st.ctx acc.contents acc.thinkings acc.toolCalls
    split
    · exact ⟨s1, hs1⟩
    · obtain ⟨s2, hs2⟩ := runToolCalls_ctx_extends cfg env acc.toolCalls
        { ctx := appendAssistant st.ctx acc.contents acc.thinkings acc.toolCalls, mem := st.mem }
      split
      · obtain ⟨s3, hs3⟩ := ih (runToolCalls cfg env acc.toolCalls
          { ctx := appendAssistant st.ctx acc.contents acc.thinkings acc.toolCalls, mem := st.mem }).2.1
        refine ⟨s1 ++ s2 ++ s3, ?_⟩
        show (loopRounds client opts toolsArg cfg env n (runToolCalls cfg env acc.toolCalls
          { ctx := appendAssistant st.ctx acc.contents acc.thinkings acc.toolCalls, mem := st.mem }).2.1).st.ctx
          = st.ctx ++ (s1 ++ s2 ++ s3)
        rw [hs3, hs2]
        simp [hs1]
      · refine ⟨s1 ++ s2, ?_⟩
        show (runToolCalls cfg env acc.toolCalls
          { ctx := appendAssistant st.ctx acc.contents acc.thinkings acc.toolCalls, mem := st.mem }).2.1.ctx
          = st.ctx ++ (s1 ++ s2)
        rw [hs2]
        simp [hs1]

/-- **C2 (confirmed).** The round's assistant message is appended to the
context exactly when one of the stripped content, stripped thinking or
tool-call set is non-empty (so a round yielding none of the three leaves
the context unchanged), and a whole loop invocation only ever extends the
context it started from — prior entries are never mutated or removed. -/
theorem assistant_append_iff_payload_and_context_append_only :
    (∀ (ctx : List Message) (cc ct : List String) (tcs : List ToolCall),
      appendAssistant ctx cc ct tcs
        = if (String.join cc).trim ≠ "" ∨ (String.join ct).trim ≠ "" ∨ tcs.isEmpty = false
          then ctx ++ [buildAssistantMsg cc ct tcs] else ctx)
    ∧ (∀ (Opt : Type) (client : Opt → List PyValue → List Message → List Chunk)
        (opts : Opt) (toolsArg : Option (List PyValue)) (cfg : Config) (env : Env)
        (conversation : List Message) (mem : MemState),
        ∃ suffix, (streaming_loop client opts conversation toolsArg cfg env mem).st.ctx
          = conversation ++ suffix) := by
  constructor
  · intro ctx cc ct tcs
    by_cases h1 : (String.join cc).trim = "" <;>
      by_cases h2 : (String.join ct).trim = "" <;>
        by_cases h3 : tcs.isEmpty = true <;>
          simp [appendAssistant, assistantHasPayload, buildAssistantMsg, h1, h2, h3]
  · intro Opt client opts toolsArg cfg env conversation mem
    unfold streaming_loop
    exact loopRounds_ctx_extends client opts toolsArg cfg env cfg.MAX_TOOL_ROUNDS
      { ctx := conversation, mem := mem }

/-- **C10 (confirmed).** The loop copies the caller's conversation list
(line 67) and appends only to the copy: after any invocation the caller's
own list is unchanged, and the loop's working context is the caller's list
followed by the newly appended messages. -/
theorem streaming_loop_frames_caller_conversation :
    ∀ (Opt : Type) (client : Opt → List PyValue → List Message → List Chunk)
      (opts : Opt) (toolsArg : Option (List PyValue)) (cfg : Config) (env : Env)
      (h : CallerHeap),
      ((streaming_loop_heap client opts toolsArg cfg env h).2.conversation
        = h.conversation)
      ∧ ∃ suffix, ((streaming_loop_heap client opts toolsArg cfg env h).1).st.ctx
          = h.conversation ++ suffix := by
  intro Opt client opts toolsArg cfg env h
  refine ⟨rfl, ?_⟩
  unfold streaming_loop_heap streaming_loop
  exact loopRounds_ctx_extends client opts toolsArg cfg env cfg.MAX_TOOL_ROUNDS
    { ctx := h.conversation, mem := h.mem }

/-! ### Round-limit behaviour of the loop -/

theorem isOkE_ok {α : Type} {e : Except Unit α} (h : isOkE e = true) :
    ∃ a, e = .ok a := by
  cases e with
  | ok a => exact ⟨a, rfl⟩
  | error b => simp [isOkE] at h

theorem runToolCalls_all_ok (cfg : Config) (env : Env) :
    ∀ (tcs : List ToolCall) (st : LoopSt),
      (∀ tc ∈ tcs, dispatchSucceeds cfg env tc) →
      ∃ ress : List ToolResult,
        ress.length = tcs.length
        ∧ (runToolCalls cfg env tcs st).1
            = (tcs.zip ress).flatMap (fun p => pairEvents p.1 p.2)
        ∧ (runToolCalls cfg env tcs st).2.2 = true := by
  intro tcs
  induction tcs with
  | nil => exact fun st _ => ⟨[], rfl, rfl, rfl⟩
  | cons tc rest ih =>
    intro st hall
    obtain ⟨pr, hpr⟩ := isOkE_ok (hall tc (List.mem_cons_self tc rest) st.mem)
    obtain ⟨res, mem2⟩ := pr
    obtain ⟨ress, hlen, hev, hflag⟩ := ih
      { ctx := st.ctx ++ [mkToolMsg env (toolNameOf tc) res tc.id], mem := mem2 }
      (fun tc2 h2 => hall tc2 (List.mem_cons_of_mem tc h2))
    refine ⟨res :: ress, by simp [hlen], ?_, ?_⟩
    · simp only [runToolCalls, hpr]
      simp [pairEvents, hev]
    · simp only [runToolCalls, hpr]
      exact hflag

theorem loopRounds_always_tools_limit {Opt : Type}
    (client : Opt → List PyValue → List Message → List Chunk) (opts : Opt)
    (toolsArg : Option (List PyValue)) (cfg : Config) (env : Env)
    (hmodel : ∀ c, (collectRound (client opts (effectiveTools cfg toolsArg) c)).toolCalls ≠ [])
    (hsafe : ∀ c tc, tc ∈ (collectRound (client opts (effectiveTools cfg toolsArg) c)).toolCalls →
      dispatchSucceeds cfg env tc) :
    ∀ (n : Nat) (st : LoopSt),
      ∃ rounds : List (List Event),
        rounds.length = n
        ∧ (loopRounds client opts toolsArg cfg env n st).events
            = rounds.flatten ++ [Event.content roundLimitMessage]
        ∧ (loopRounds client opts toolsArg cfg env n st).modelCalls = n
        ∧ (loopRounds client opts toolsArg cfg env n st).term = Term.limit
        ∧ ∀ r ∈ rounds, ∃ (pre : List Event) (tcs2 : List ToolCall) (ress : List ToolResult),
            tcs2 ≠ []
            ∧ ress.length = tcs2.length
            ∧ r = pre ++ (tcs2.zip ress).flatMap (fun p => pairEvents p.1 p.2) := by
  intro n
  induction n with
  | zero =>
    intro st
    exact ⟨[], rfl, rfl, rfl, rfl, by intro r hr; cases hr⟩
  | succ n ih =>
    intro st
    have hne := hmodel st.ctx
    have hsf := hsafe st.ctx
    simp only [loopRounds]
    generalize hacc : collectRound (client opts (effectiveTools cfg toolsArg) st.ctx) = acc
    rw [hacc] at hne hsf
    have hempty : ¬ (acc.toolCalls.isEmpty = true) := by
      cases htc : acc.toolCalls with
      | nil => exact absurd htc hne
      | cons a l => simp
    rw [if_neg hempty]
    obtain ⟨ress, hlen, hev, hflag⟩ := runToolCalls_all_ok cfg env acc.toolCalls
      { ctx := appendAssistant st.ctx acc.contents acc.thinkings acc.toolCalls, mem := st.mem }
      hsf
    rw [if_pos hflag]
    obtain ⟨rounds, hrl, hre, hrm, hrt, hrshape⟩ := ih (runToolCalls cfg env acc.toolCalls
      { ctx := appendAssistant st.ctx acc.contents acc.thinkings acc.toolCalls, mem := st.mem }).2.1
    refine ⟨(acc.events ++ (runToolCalls cfg env acc.toolCalls
      { ctx := appendAssistant st.ctx acc.contents acc.thinkings acc.toolCalls, mem := st.mem }).1)
        :: rounds, by simp [hrl], ?_, ?_, ?_, ?_⟩
    · show acc.events ++ _ ++ _ = _
      rw [hre]
      simp [List.append_assoc]
    · show 1 + _ = n + 1
      omega
    · exact hrt
    · intro r hr
      rcases List.mem_cons.mp hr with hhead | htail
      · exact ⟨acc.events, acc.toolCalls, ress, hne, hlen, by rw [hhead, hev]⟩
      · exact hrshape r htail

/-- **C1 counterexample.** A model capability that requests at least one
tool call on every invocation — here a `memory_tool` call whose `content`
argument is the integer 1 — does not drive the loop through
`MAX_TOOL_ROUNDS` rounds: its dispatch raises in round one, so with round
limit 3 the loop invokes the model exactly once, emits a lone
`tool_request` with no matching `tool_result`, emits no content event at
all (in particular never the round-limit message), and terminates by
exception. -/
theorem streaming_loop_raising_tool_aborts_before_round_limit :
    (streaming_loop alwaysIntContentClient () [] Option.none sampleConfig sampleEnv
        Option.none).term = Term.raised
    ∧ (streaming_loop alwaysIntContentClient () [] Option.none sampleConfig sampleEnv
        Option.none).modelCalls = 1
    ∧ sampleConfig.MAX_TOOL_ROUNDS = 3
    ∧ (streaming_loop alwaysIntContentClient () [] Option.none sampleConfig sampleEnv
        Option.none).events
        = [Event.tool_request "memory_tool" (.pydict [("content", .pyint 1)])]
    ∧ (streaming_loop alwaysIntContentClient () [] Option.none sampleConfig sampleEnv
        Option.none).events.filterMap
          (fun e => match e with | Event.content t => some t | _ => Option.none) = [] :=
  ⟨rfl, rfl, rfl, rfl, rfl⟩

/-- **C1 (amended).** For every initial conversation, generation options
(temperature and token budget, abstracted in `opts`), tool list and memory
state, and for every model capability that requests at least one tool call
on each invocation *and whose requested calls never make the dispatcher
raise*, the streaming loop performs exactly `MAX_TOOL_ROUNDS` rounds — each
emitting its `tool_request`/`tool_result` pairs — invokes the model exactly
`MAX_TOOL_ROUNDS` times (so none after the last round), and terminates with
the single fixed round-limit message as its final content event.  Without
the no-raise condition the loop can abort early (see the counterexample). -/
theorem streaming_loop_round_limit_exact (Opt : Type)
    (client : Opt → List PyValue → List Message → List Chunk) (opts : Opt)
    (toolsArg : Option (List PyValue)) (cfg : Config) (env : Env)
    (conversation : List Message) (mem : MemState)
    (hmodel : ∀ c, (collectRound (client opts (effectiveTools cfg toolsArg) c)).toolCalls ≠ [])
    (hsafe : ∀ c tc, tc ∈ (collectRound (client opts (effectiveTools cfg toolsArg) c)).toolCalls →
      dispatchSucceeds cfg env tc) :
    ∃ rounds : List (List Event),
      rounds.length = cfg.MAX_TOOL_ROUNDS
      ∧ (streaming_loop client opts conversation toolsArg cfg env mem).events
          = rounds.flatten ++ [Event.content roundLimitMessage]
      ∧ (streaming_loop client opts conversation toolsArg cfg env mem).modelCalls
          = cfg.MAX_TOOL_ROUNDS
      ∧ (streaming_loop client opts conversation toolsArg cfg env mem).term = Term.limit
      ∧ ∀ r ∈ rounds, ∃ (pre : List Event) (tcs2 : List ToolCall) (ress : List ToolResult),
          tcs2 ≠ []
          ∧ ress.length = tcs2.length
          ∧ r = pre ++ (tcs2.zip ress).flatMap (fun p => pairEvents p.1 p.2) := by
  unfold streaming_loop
  exact loopRounds_always_tools_limit client opts toolsArg cfg env hmodel hsafe
    cfg.MAX_TOOL_ROUNDS { ctx := conversation, mem := mem }

/-- Witness for `streaming_loop_round_limit_exact`: a client that always
requests one `python_exec` call drives the loop through exactly 3 rounds. -/
theorem streaming_loop_round_limit_exact_witness :
    ∃ rounds : List (List Event),
      rounds.length = sampleConfig.MAX_TOOL_ROUNDS
      ∧ (streaming_loop alwaysPyExecClient () [] Option.none sampleConfig sampleEnv
          Option.none).events = rounds.flatten ++ [Event.content roundLimitMessage]
      ∧ (streaming_loop alwaysPyExecClient () [] Option.none sampleConfig sampleEnv
          Option.none).modelCalls = sampleConfig.MAX_TOOL_ROUNDS
      ∧ (streaming_loop alwaysPyExecClient () [] Option.none sampleConfig sampleEnv
          Option.none).term = Term.limit
      ∧ ∀ r ∈ rounds, ∃ (pre : List Event) (tcs2 : List ToolCall) (ress : List ToolResult),
          tcs2 ≠ []
          ∧ ress.length = tcs2.length
          ∧ r = pre ++ (tcs2.zip ress).flatMap (fun p => pairEvents p.1 p.2) :=
  streaming_loop_round_limit_exact Unit alwaysPyExecClient () Option.none sampleConfig
    sampleEnv [] Option.none
    (fun c => by
      show ([pyExecCall] : List ToolCall) ≠ []
      exact List.cons_ne_nil _ _)
    (fun c tc htc => by
      have h : tc = pyExecCall := List.mem_singleton.mp htc
      subst h
      intro mem
      rfl)

/-! ### Team pipeline ordering -/

theorem loopRounds_safe_not_raised {Opt : Type}
    (client : Opt → List PyValue → List Message → List Chunk) (opts : Opt)
    (toolsArg : Option (List PyValue)) (cfg : Config) (env : Env)
    (hsafe : ∀ c tc, tc ∈ (collectRound (client opts (effectiveTools cfg toolsArg) c)).toolCalls →
      dispatchSucceeds cfg env tc) :
    ∀ (n : Nat) (st : LoopSt),
      (loopRounds client opts toolsArg cfg env n st).term ≠ Term.raised := by
  intro n
  induction n with
  | zero => exact fun st h => Term.noConfusion h
  | succ n ih =>
    intro st
    have hsf := hsafe st.ctx
    simp only [loopRounds]
    generalize hacc : collectRound (client opts (effectiveTools cfg toolsArg) st.ctx) = acc
    rw [hacc] at hsf
    split
    · exact fun h => Term.noConfusion h
    · obtain ⟨ress, hlen, hev, hflag⟩ := runToolCalls_all_ok cfg env acc.toolCalls
        { ctx := appendAssistant st.ctx acc.contents acc.thinkings acc.toolCalls, mem := st.mem }
        hsf
      rw [if_pos hflag]
      exact ih _

theorem runMembers_all_ok {Opt : Type}
    (client : Opt → List PyValue → List Message → List Chunk) (opts : Opt)
    (cfg : Config) (env : Env) (outgoing : List Message)
    (hsafe : ∀ c tc, tc ∈ (collectRound (client opts (PYTHON_ONLY_TOOLS cfg) c)).toolCalls →
      dispatchSucceeds cfg env tc) :
    ∀ (members : List TeamMember) (answers : List (String × String)) (mem : MemState),
      ∃ evss : List (List Event),
        evss.length = members.length
        ∧ (runMembers client opts cfg env outgoing members answers mem).1
            = ((members.zip evss).flatMap fun p =>
                WireEvent.member_start (metaOf p.1)
                  :: (p.2.map WireEvent.sse ++ [WireEvent.member_end p.1.id]))
        ∧ (runMembers client opts cfg env outgoing members answers mem).2.2.2 = true := by
  intro members
  induction members with
  | nil => exact fun answers mem => ⟨[], rfl, rfl, rfl⟩
  | cons m rest ih =>
    intro answers mem
    have hterm : (streaming_loop client opts (memberCtx outgoing m)
        (some (team_member_tools cfg)) cfg env mem).term ≠ Term.raised :=
      loopRounds_safe_not_raised client opts (some (team_member_tools cfg)) cfg env hsafe
        cfg.MAX_TOOL_ROUNDS { ctx := memberCtx outgoing m, mem := mem }
    simp only [runMembers]
    rw [if_neg hterm]
    obtain ⟨evss, hlen, hev, hflag⟩ := ih
      ((m.id, contentConcat (streaming_loop client opts (memberCtx outgoing m)
        (some (team_member_tools cfg)) cfg env mem).events) :: answers)
      (streaming_loop client opts (memberCtx outgoing m)
        (some (team_member_tools cfg)) cfg env mem).st.mem
    refine ⟨(streaming_loop client opts (memberCtx outgoing m)
      (some (team_member_tools cfg)) cfg env mem).events :: evss, by simp [hlen], ?_, ?_⟩
    · show WireEvent.member_start (metaOf m) :: _ ++ [WireEvent.member_end m.id] ++ _ = _
      rw [hev]
      simp [List.append_assoc]
    · exact hflag

theorem filterMap_framing_sse (evs : List Event) :
    (evs.map WireEvent.sse).filterMap framingOf = [] := by
  induction evs with
  | nil => rfl
  | cons e t ih => simp [framingOf, ih]

theorem filterMap_framing_blocks :
    ∀ (ms : List TeamMember) (evss : List (List Event)),
      ((ms.zip evss).flatMap fun p =>
          WireEvent.member_start (metaOf p.1)
            :: (p.2.map WireEvent.sse ++ [WireEvent.member_end p.1.id])).filterMap framingOf
        = (ms.take evss.length).flatMap fun m => [FrameTag.mstart m.id, FrameTag.mend m.id] := by
  intro ms
  induction ms with
  | nil => intro evss; simp
  | cons m rest ih =>
    intro evss
    cases evss with
    | nil => rfl
    | cons evs evss2 =>
      simp only [List.zip_cons_cons, List.flatMap_cons, List.filterMap_append,
        List.filterMap_cons, List.length_cons, List.take_succ_cons]
      rw [ih evss2]
      simp [framingOf, filterMap_framing_sse, metaOf]

/-- **C9 counterexample.** A stub model that always requests the raising
`memory_tool` call breaks the framing sequence: the first member's loop
aborts by exception, so the stream carries only `member_start(rex)` followed
by the error payload — no `member_end`, no other members, no leader frames. -/
theorem team_raising_member_breaks_framing :
    (chat_team_events alwaysIntContentClient () sampleConfig sampleEnv
        [teamRex, teamNova, teamVera] teamSage sampleOutgoing Option.none).filterMap framingOf
      = [FrameTag.mstart "rex"]
    ∧ [FrameTag.mstart "rex"]
      ≠ (([teamRex, teamNova, teamVera].flatMap
            fun m => [FrameTag.mstart m.id, FrameTag.mend m.id])
          ++ [FrameTag.lstart teamSage.id, FrameTag.lend teamSage.id]) :=
  ⟨rfl, by decide⟩

/-- **C9 (amended).** For every request to the team endpoint with the
configured members and leader, *provided no tool call requested by the model
makes the dispatcher raise*, the emitted events decompose into one
`member_start … member_end` block per member, in roster order, each member's
loop events lying strictly between its frames, followed by the leader's
`leader_start … leader_end` block and the terminator — in particular the
projection to framing events is exactly
`member_start(1), member_end(1), …, member_start(k), member_end(k),
leader_start, leader_end` with no interleaving.  (Without the no-raise
condition the sequence can be cut short: see the counterexample.) -/
theorem team_framing_sequence (Opt : Type)
    (client : Opt → List PyValue → List Message → List Chunk) (opts : Opt)
    (cfg : Config) (env : Env) (members : List TeamMember) (leader : TeamMember)
    (outgoing : List Message) (mem : MemState)
    (hsafe : ∀ c tc, tc ∈ (collectRound (client opts (PYTHON_ONLY_TOOLS cfg) c)).toolCalls →
      dispatchSucceeds cfg env tc) :
    ∃ (memberEvs : List (List Event)) (leaderEvs : List Event),
      memberEvs.length = members.length
      ∧ chat_team_events client opts cfg env members leader outgoing mem
          = ((members.zip memberEvs).flatMap fun p =>
              WireEvent.member_start (metaOf p.1)
                :: (p.2.map WireEvent.sse ++ [WireEvent.member_end p.1.id]))
            ++ (WireEvent.leader_start (metaOf leader)
                :: (leaderEvs.map WireEvent.sse
                    ++ [WireEvent.leader_end leader.id, WireEvent.done]))
      ∧ (chat_team_events client opts cfg env members leader outgoing mem).filterMap framingOf
          = (members.flatMap fun m => [FrameTag.mstart m.id, FrameTag.mend m.id])
            ++ [FrameTag.lstart leader.id, FrameTag.lend leader.id] := by
  obtain ⟨evss, hlen, hev, hflag⟩ :=
    runMembers_all_ok client opts cfg env outgoing hsafe members [] mem
  have hlterm : (streaming_loop client opts
      (leaderCtx leader (leaderUserMsg outgoing members
        (runMembers client opts cfg env outgoing members [] mem).2.1))
      (some (team_leader_tools cfg)) cfg env
      (runMembers client opts cfg env outgoing members [] mem).2.2.1).term ≠ Term.raised :=
    loopRounds_safe_not_raised client opts (some (team_leader_tools cfg)) cfg env hsafe
      cfg.MAX_TOOL_ROUNDS _
  have hdecomp : chat_team_events client opts cfg env members leader outgoing mem
      = ((members.zip evss).flatMap fun p =>
          WireEvent.member_start (metaOf p.1)
            :: (p.2.map WireEvent.sse ++ [WireEvent.member_end p.1.id]))
        ++ (WireEvent.leader_start (metaOf leader)
            :: ((streaming_loop client opts
                  (leaderCtx leader (leaderUserMsg outgoing members
                    (runMembers client opts cfg env outgoing members [] mem).2.1))
                  (some (team_leader_tools cfg)) cfg env
                  (runMembers client opts cfg env outgoing members [] mem).2.2.1).events.map
                    WireEvent.sse
                ++ [WireEvent.leader_end leader.id, WireEvent.done])) := by
    unfold chat_team_events
    rw [if_neg (by simp [hflag]), if_neg hlterm, hev]
    simp
  refine ⟨evss, _, hlen, hdecomp, ?_⟩
  rw [hdecomp, List.filterMap_append, filterMap_framing_blocks members evss]
  rw [hlen, List.take_length]
  simp [framingOf, filterMap_framing_sse, List.filterMap_cons, List.filterMap_append, metaOf]

/-- Witness for `team_framing_sequence`: a content-only stub model with the
three-member roster and the leader produces the exact framing sequence. -/
theorem team_framing_sequence_witness :
    ∃ (memberEvs : List (List Event)) (leaderEvs : List Event),
      memberEvs.length = ([teamRex, teamNova, teamVera] : List TeamMember).length
      ∧ chat_team_events contentOnlyClient () sampleConfig sampleEnv
          [teamRex, teamNova, teamVera] teamSage sampleOutgoing Option.none
          = (([teamRex, teamNova, teamVera].zip memberEvs).flatMap fun p =>
              WireEvent.member_start (metaOf p.1)
                :: (p.2.map WireEvent.sse ++ [WireEvent.member_end p.1.id]))
            ++ (WireEvent.leader_start (metaOf teamSage)
                :: (leaderEvs.map WireEvent.sse
                    ++ [WireEvent.leader_end teamSage.id, WireEvent.done]))
      ∧ (chat_team_events contentOnlyClient () sampleConfig sampleEnv
          [teamRex, teamNova, teamVera] teamSage sampleOutgoing Option.none).filterMap framingOf
          = ([teamRex, teamNova, teamVera].flatMap
              fun m => [FrameTag.mstart m.id, FrameTag.mend m.id])
            ++ [FrameTag.lstart teamSage.id, FrameTag.lend teamSage.id] :=
  team_framing_sequence Unit contentOnlyClient () sampleConfig sampleEnv
    [teamRex, teamNova, teamVera] teamSage sampleOutgoing Option.none
    (fun _ tc htc => absurd htc (List.not_mem_nil tc))

end SayCuteWeb
